import Mathlib

/-!
Verification of the TaskManagerFrontend client against its specification.

The TypeScript source is shallowly embedded: JavaScript timestamps
(`Date.getTime()`) are modelled as `Int` milliseconds; a nullable deadline
string together with the outcome of `new Date(string)` parsing is modelled
by the inductive `DateInput` (`empty` for a falsy string, `invalid` for a
string whose timestamp is `NaN`, `valid t` for a string parsing to timestamp
`t`); the i18n translator `t(key, vars)` is modelled by returning the
translation key and its interpolation variables as an inductive `Label`.
`Math.ceil(a / b)` for an exact integer quotient with positive divisor is
modelled as integer ceiling division.
-/

/-- Outcome of `!deadline` / `new Date(deadline)` on a nullable deadline
string: `empty` when the string is null/undefined/empty (falsy), `invalid`
when `Number.isNaN(date.getTime())`, `at t` when it parses to timestamp
`t` (milliseconds since the epoch). -/
inductive DateInput where
  | empty : DateInput
  | invalid : DateInput
  | valid (t : Int) : DateInput
deriving DecidableEq, Repr

/-- `Math.ceil(a / b)` for integers `a`, `b` with `b > 0`: the ceiling of
the exact quotient, via `⌈a/b⌉ = -⌊-a/b⌋`. -/
def ceilDiv (a b : Int) : Int := -((-a).fdiv b)

/-- JavaScript `String.prototype.toLowerCase()`, modelled as mapping
`Char.toLower` over the characters. -/
def jsToLowerCase (s : String) : String := ⟨s.data.map Char.toLower⟩

/-- JavaScript `String.prototype.toUpperCase()`, modelled as mapping
`Char.toUpper` over the characters. -/
def jsToUpperCase (s : String) : String := ⟨s.data.map Char.toUpper⟩

/-- JavaScript `String.prototype.trim()`: strip leading and trailing
whitespace characters. -/
def jsTrim (s : String) : String :=
  ⟨((s.data.dropWhile Char.isWhitespace).reverse.dropWhile Char.isWhitespace).reverse⟩

/-- The `tone` field of a deadline badge (`Dashboard.tsx` / `App.tsx`). -/
inductive Tone where
  | ok | warn | danger | muted
deriving DecidableEq, Repr

/-- The `label` field of a deadline badge: the translation key passed to
`t`, with its `count` interpolation variable where present. -/
inductive Label where
  | noDeadline              -- t('deadlines.none')
  | invalidDate             -- t('deadlines.invalid')
  | daysLeft (count : Int)  -- t('deadlines.daysLeft', { count })
  | dayLeft                 -- t('deadlines.dayLeft')
  | dueToday                -- t('deadlines.dueToday')
  | overdueOne              -- t('deadlines.overdueOne')
  | overdueMany (count : Int) -- t('deadlines.overdueMany', { count })
deriving DecidableEq, Repr

/-- `{ label, tone }` pair returned by the deadline classifiers. -/
structure DeadlineInfo where
  label : Label
  tone : Tone
deriving DecidableEq, Repr

/-- `computeDeadlineInfo` from `src/pages/Dashboard.tsx` (lines 45–57),
with `Date.now()` passed explicitly as `now`. -/
def computeDeadlineInfo (deadline : DateInput) (now : Int) : DeadlineInfo :=
  match deadline with
  | .empty => ⟨.noDeadline, .muted⟩
  | .invalid => ⟨.invalidDate, .muted⟩
  | .valid t =>
    let diffMs := t - now
    let diffDays := ceilDiv diffMs (1000 * 60 * 60 * 24)
    if diffDays > 1 then ⟨.daysLeft diffDays, .ok⟩
    else if diffDays = 1 then ⟨.dayLeft, .warn⟩
    else if diffDays = 0 then ⟨.dueToday, .warn⟩
    else
      let overdue := abs diffDays
      if overdue = 1 then ⟨.overdueOne, .danger⟩
      else ⟨.overdueMany overdue, .danger⟩

/-- `computeBadge` from `src/App.tsx` (CreateProjectPage, lines 54–66);
its body is the same as `computeDeadlineInfo`'s. -/
def computeBadge (deadline : DateInput) (now : Int) : DeadlineInfo :=
  match deadline with
  | .empty => ⟨.noDeadline, .muted⟩
  | .invalid => ⟨.invalidDate, .muted⟩
  | .valid t =>
    let diffMs := t - now
    let diffDays := ceilDiv diffMs (1000 * 60 * 60 * 24)
    if diffDays > 1 then ⟨.daysLeft diffDays, .ok⟩
    else if diffDays = 1 then ⟨.dayLeft, .warn⟩
    else if diffDays = 0 then ⟨.dueToday, .warn⟩
    else
      let overdue := abs diffDays
      if overdue = 1 then ⟨.overdueOne, .danger⟩
      else ⟨.overdueMany overdue, .danger⟩

/-- The classifier as the specification words it (spec §4.1): cases on
`diffDays = ceil((deadline − now) / 86400000)`, listed exactly in the
spec's order, including the explicit `diffDays = −1` case. -/
def specClassify (deadline : DateInput) (now : Int) : DeadlineInfo :=
  match deadline with
  | .empty => ⟨.noDeadline, .muted⟩
  | .invalid => ⟨.invalidDate, .muted⟩
  | .valid t =>
    let diffDays := ceilDiv (t - now) 86400000
    if diffDays > 1 then ⟨.daysLeft diffDays, .ok⟩
    else if diffDays = 1 then ⟨.dayLeft, .warn⟩
    else if diffDays = 0 then ⟨.dueToday, .warn⟩
    else if diffDays = -1 then ⟨.overdueOne, .danger⟩
    else ⟨.overdueMany (abs diffDays), .danger⟩

/-- An HTTP request as the api client builds it: method and path (the
body/headers play no role in the claims below). -/
structure ApiRequest where
  method : String
  path : String
deriving DecidableEq, Repr

/-- `api.completeTask` from `src/lib/api.ts` (lines 435–439):
`POST /tasks/:id/complete`. -/
def completeTaskRequest (taskId : Int) : ApiRequest :=
  ⟨"POST", "/tasks/" ++ toString taskId ++ "/complete"⟩

/-- `api.reopenTask` from `src/lib/api.ts`: `POST /tasks/:id/reopen`. -/
def reopenTaskRequest (taskId : Int) : ApiRequest :=
  ⟨"POST", "/tasks/" ++ toString taskId ++ "/reopen"⟩

/-- The two arguments a Dashboard task handler passes to `updateTask`
that distinguish handlers from one another: the request issued by the
`run` thunk and the success-notice dictionary key. -/
structure TaskActionSpec where
  request : ApiRequest
  successKey : String
deriving DecidableEq, Repr

/-- `handleApproveTask` (Dashboard.tsx lines 536–537):
`updateTask(projectId, taskId, () => api.completeTask(taskId),
'approveSuccess')`. -/
def handleApproveTask (taskId : Int) : TaskActionSpec :=
  ⟨completeTaskRequest taskId, "approveSuccess"⟩

/-- `handleCompleteTask` (Dashboard.tsx lines 539–540):
`updateTask(projectId, taskId, () => api.completeTask(taskId),
'completeSuccess')`. -/
def handleCompleteTask (taskId : Int) : TaskActionSpec :=
  ⟨completeTaskRequest taskId, "completeSuccess"⟩

/-- `handleSubmitTask` (Dashboard.tsx): same request, submit notice. -/
def handleSubmitTask (taskId : Int) : TaskActionSpec :=
  ⟨completeTaskRequest taskId, "submitSuccess"⟩

/-- `handleReopenTask` (Dashboard.tsx): `api.reopenTask`. -/
def handleReopenTask (taskId : Int) : TaskActionSpec :=
  ⟨reopenTaskRequest taskId, "reopenSuccess"⟩

/-- The state `updateTask` (Dashboard.tsx) leaves behind, at the
granularity of the claims: on success it applies the returned task
detail, re-fetches the dashboard data, and shows the handler's success
notice; on failure it sets the error string. -/
structure UpdateTaskState where
  appliedDetail : Bool
  refetched : Bool
  notice : Option String
  error : Option String
deriving DecidableEq, Repr

/-- `updateTask` (Dashboard.tsx lines 509–531): the same code path for
every handler, parameterised only by the `run` thunk's outcome and the
success key (the catch-branch fallback to `updateFailed` is folded into
the outcome's error string). -/
def updateTask (a : TaskActionSpec) (outcome : Except String Unit) : UpdateTaskState :=
  match outcome with
  | .ok _ => ⟨true, true, some a.successKey, none⟩
  | .error e => ⟨false, false, none, some e⟩

/-- Updater passed to `setArchivedProjectIds` by `archiveProject`
(Dashboard.tsx lines 258–263): no-op when the id is already present,
otherwise append it. -/
def archiveProjectIds (prev : List Int) (projectId : Int) : List Int :=
  if projectId ∈ prev then prev else prev ++ [projectId]

/-- Updater passed to `setArchivedProjectIds` by `restoreProject`
(Dashboard.tsx lines 299–301): remove every occurrence of the id. -/
def restoreProjectIds (prev : List Int) (projectId : Int) : List Int :=
  prev.filter (fun id => id ≠ projectId)

/-- A task as the dashboard sees it (`ProjectTaskSummary` in api.ts):
only the fields the filter pipeline reads. -/
structure TaskSummary where
  id : Int
  title : String
  status : String
  deadline : DateInput
  tags : List String
deriving DecidableEq, Repr

/-- A project as the dashboard sees it (`ProjectOverview` in api.ts):
only the fields the filter pipeline reads. -/
structure Project where
  id : Int
  name : String
  status : String
  deadline : DateInput
  tasks : List TaskSummary
deriving DecidableEq, Repr

/-- `normalizeTag` from Dashboard.tsx line 805:
`(value) => value.trim().toLowerCase()`. -/
def normalizeTag (value : String) : String := jsToLowerCase (jsTrim value)

/-- `filterProjectsByTag` from Dashboard.tsx lines 823–838: with a falsy
(empty) filter return the list unchanged; otherwise keep, per project,
the tasks having a tag that normalises to the normalised filter, mapping
a project with no matching task to `null` (`none`) and dropping the
nulls. -/
def filterProjectsByTag (tagFilter : String) (projects : List Project) : List Project :=
  if tagFilter = "" then projects
  else
    let normalized := normalizeTag tagFilter;
    (projects.map (fun project =>
      let filteredTasks : List TaskSummary := project.tasks.filter (fun task =>
        task.tags.any (fun tag => normalizeTag tag == normalized))
      if filteredTasks.length = 0 then (none : Option Project)
      else some { project with tasks := filteredTasks })).reduceOption

/-- The per-task test of `filterProjectsByTag`, named for the theorems:
some tag of the task normalises to the normalised filter. -/
def taskMatchesTag (tagFilter : String) (task : TaskSummary) : Bool :=
  task.tags.any (fun tag => normalizeTag tag == normalizeTag tagFilter)

/-- The task-status filter applied inside `applyProjectFilters`
(Dashboard.tsx lines 873–881): 'all' keeps everything; 'overdue' keeps
non-COMPLETED tasks with a parseable deadline strictly before `now`;
any other value is compared with the task's uppercased status. -/
def taskMatchesStatusFilter (taskStatusFilter : String) (now : Int)
    (task : TaskSummary) : Bool :=
  if taskStatusFilter = "all" then true
  else if taskStatusFilter = "overdue" then
    if jsToUpperCase task.status = "COMPLETED" then false
    else match task.deadline with
      | .valid t => decide (t < now)
      | _ => false
  else jsToUpperCase task.status == taskStatusFilter

/-- The `{ ...project, tasks: filteredTasks }` transform of an included
project in `applyProjectFilters`. -/
def filterTasksByStatus (taskStatusFilter : String) (now : Int)
    (project : Project) : Project :=
  { project with tasks := project.tasks.filter (taskMatchesStatusFilter taskStatusFilter now) }

/-- The `include` switch of `applyProjectFilters` (Dashboard.tsx lines
852–869), computed from the project's derived flags. -/
def projectIncluded (archivedIds : List Int) (projectStatusFilter : String)
    (now : Int) (project : Project) : Bool :=
  let isArchived := decide (project.id ∈ archivedIds)
  let isCompleted := jsToUpperCase project.status == "COMPLETED"
  let isOverdue := !isCompleted &&
    (match project.deadline with
     | .valid t => decide (t < now)
     | _ => false)
  if projectStatusFilter = "archived" then isArchived
  else if projectStatusFilter = "completed" then !isArchived && isCompleted
  else if projectStatusFilter = "overdue" then !isArchived && isOverdue
  else if projectStatusFilter = "active" then !isArchived && !isCompleted && !isOverdue
  else !isArchived

/-- `applyProjectFilters` from Dashboard.tsx lines 840–888: tag-filter
first, then map each project through the `include` switch (mapping
excluded projects to `null` and dropping them), replacing the task list
of each included project by its task-status-filtered tasks. -/
def applyProjectFilters (tagFilter : String) (archivedIds : List Int)
    (projectStatusFilter taskStatusFilter : String) (now : Int)
    (projects : List Project) : List Project :=
  let tagged := filterProjectsByTag tagFilter projects;
  (tagged.map (fun project =>
    if projectIncluded archivedIds projectStatusFilter now project
    then some (filterTasksByStatus taskStatusFilter now project)
    else none)).reduceOption

/-- A task row of the create-project form (`NewProjectTaskPayload` shape
before submission): free-text title/description, toggled tags, and the
deadline field with its parse outcome. -/
structure NewTask where
  title : String
  description : String
  tags : List String
  deadline : DateInput
deriving DecidableEq, Repr

/-- `Array.from(new Set(xs))`: deduplicate keeping the first occurrence
of each element, in insertion order. -/
def jsSetDedup (l : List String) : List String :=
  l.foldl (fun acc tag => if tag ∈ acc then acc else acc ++ [tag]) []

/-- The tag preparation inside `onCreate` (App.tsx line 157):
`Array.from(new Set(task.tags.map(tag => tag.trim()).filter(Boolean)))`. -/
def preparedTags (tags : List String) : List String :=
  jsSetDedup ((tags.map jsTrim).filter (fun t => t ≠ ""))

/-- The error the `onCreate` validator can report, by translation key,
with its 1-based task index where the key takes one. -/
inductive CreateError where
  | chooseDeadline                 -- projects.errors.chooseDeadline
  | invalidDeadline                -- projects.errors.invalidDeadline
  | fillTask (index : Nat)         -- projects.errors.fillTask
  | setTaskDeadline (index : Nat)  -- projects.errors.setTaskDeadline
  | invalidTaskDeadline (index : Nat) -- projects.errors.invalidTaskDeadline
  | taskAfterProject (index : Nat) -- projects.errors.taskAfterProject
deriving DecidableEq, Repr

/-- The 1-based task index carried by a validation error, when the
error's message names one. -/
def createErrorIndex : CreateError → Option Nat
  | .fillTask i => some i
  | .setTaskDeadline i => some i
  | .invalidTaskDeadline i => some i
  | .taskAfterProject i => some i
  | _ => none

/-- A task of the payload `onCreate` submits on success. -/
structure PreparedTask where
  title : String
  description : Option String
  tags : List String
  deadline : Int
deriving DecidableEq, Repr

/-- The body of the `tasksInput.map` callback in `onCreate` (App.tsx
lines 155–178) for the task at 0-based position `idx`: trims the title,
trims/dedupes the tags, and throws (returns `.error`) on an empty title
or tag set, a missing, unparseable, or post-project-deadline task
deadline — in that order — naming the 1-based index `idx + 1`. -/
def prepareTask (projectDeadline : Int) (idx : Nat) (task : NewTask) :
    Except CreateError PreparedTask :=
  let indexLabel := idx + 1
  let title := jsTrim task.title
  let tags := preparedTags task.tags
  if title = "" ∨ tags.length = 0 then .error (.fillTask indexLabel)
  else match task.deadline with
    | .empty => .error (.setTaskDeadline indexLabel)
    | .invalid => .error (.invalidTaskDeadline indexLabel)
    | .valid t =>
      if t > projectDeadline then .error (.taskAfterProject indexLabel)
      else .ok ⟨title,
        (if jsTrim task.description = "" then none else some (jsTrim task.description)),
        tags, t⟩

/-- `tasksInput.map(...)` with a thrown error short-circuiting the map:
tasks are prepared in input order and the first failure aborts. -/
def prepareTasks (projectDeadline : Int) : Nat → List NewTask →
    Except CreateError (List PreparedTask)
  | _, [] => .ok []
  | idx, task :: rest =>
    match prepareTask projectDeadline idx task with
    | .error e => .error e
    | .ok p =>
      match prepareTasks projectDeadline (idx + 1) rest with
      | .error e => .error e
      | .ok ps => .ok (p :: ps)

/-- The payload `onCreate` hands to `api.createProject`. -/
structure CreatePayload where
  name : String
  description : Option String
  color : String
  deadline : Int
  tasks : List PreparedTask
deriving DecidableEq, Repr

/-- `onCreate` from App.tsx (CreateProjectPage, lines 138–201) up to the
API call: a `.error` result means the validator blocked the submission
(`api.createProject` is never invoked); `.ok payload` means the API is
called with `payload`. -/
def onCreate (name description color : String) (deadline : DateInput)
    (tasksInput : List NewTask) : Except CreateError CreatePayload :=
  match deadline with
  | .empty => .error .chooseDeadline
  | .invalid => .error .invalidDeadline
  | .valid pd =>
    match prepareTasks pd 0 tasksInput with
    | .error e => .error e
    | .ok prepared =>
      .ok ⟨jsTrim name,
        (if jsTrim description = "" then none else some (jsTrim description)),
        jsToUpperCase color, pd, prepared⟩

/-- The spec's per-task acceptance predicate (§4.4): non-empty trimmed
title, non-empty tag set after trim and dedupe, a present and parseable
deadline, and task deadline ≤ project deadline. -/
def taskValidB (projectDeadline : Int) (task : NewTask) : Bool :=
  jsTrim task.title ≠ "" && preparedTags task.tags ≠ [] &&
    (match task.deadline with
     | .valid t => decide (t ≤ projectDeadline)
     | _ => false)

/-- A JSON value, as produced by `JSON.parse`. JSON numerals are
modelled as integers: the archive and http logic only ever deals with
integral ids and message strings. -/
inductive JValue where
  | jnull
  | jbool (b : Bool)
  | jnum (n : Int)
  | jstr (s : String)
  | jarr (elems : List JValue)
  | jobj (fields : List (String × JValue))

/-- Decimal digit-string parser backing the string-to-number coercion:
`some` of the value when every character is a digit, `none` otherwise. -/
def digitsToNat? (s : List Char) : Option Nat :=
  if s = [] then none
  else if s.all Char.isDigit
  then some (s.foldl (fun acc c => acc * 10 + (c.toNat - 48)) 0)
  else none

/-- The integer fragment of JavaScript `Number(string)`: a trimmed
empty string is `0`, an optionally signed decimal integer literal is its
exact value, and any other string of sign/digit/whitespace characters
is `NaN` (`none`). This is NOT all of `Number()`: strings that coerce
through fractional, exponent, hex/octal/binary or `Infinity` forms
(`"1.5"`, `"1e3"`, `"0x10"`, `"Infinity"`), or to doubles beyond the
exact-integer range, are IEEE-754 behaviour an integer-valued embedding
cannot express; they too fall to `none` here, so theorems about the
coercion of arbitrary strings are guarded by `numberStringModelled`,
inside which this function agrees with `Number()` exactly. -/
def jsStringToNumber (s : String) : Option Int :=
  let t := jsTrim s;
  if t = "" then some 0
  else match t.data with
    | '+' :: rest => (digitsToNat? rest).map Int.ofNat
    | '-' :: rest => (digitsToNat? rest).map (fun n => -(Int.ofNat n))
    | cs => (digitsToNat? cs).map Int.ofNat

/-- The strings on which `jsStringToNumber` agrees with JavaScript
`Number()`: every character is an ASCII digit, a sign, or whitespace
that `jsTrim` strips, and any parsed value lies within the double-exact
integer range (`|n| ≤ 2^53`). On such strings `Number` yields exactly
the signed decimal-integer value (representable exactly as a double),
or `NaN` — never a fractional, infinite or rounded result. -/
def numberStringModelled (s : String) : Bool :=
  s.data.all (fun c => c.isDigit || c == '+' || c == '-' || c.isWhitespace) &&
    (match jsStringToNumber s with
     | some n => decide (n.natAbs ≤ 2 ^ 53)
     | none => true)

/-- JavaScript `Number(value)` on a parsed JSON value (`none` = `NaN`),
on the integer fragment: `null → 0`, booleans → 0/1, numbers themselves
(JSON numerals are exact integers by this file's convention), strings
via `jsStringToNumber`, arrays via their `toString` (empty → `""` → 0,
a singleton coerces its element — except a boolean element, whose
`toString` is not numeric — and longer arrays contain a comma, hence
`NaN`), objects → `NaN`. Faithful to `Number()` exactly on the values
accepted by `coercionModelled`. -/
def jsToNumber : JValue → Option Int
  | .jnull => some 0
  | .jbool b => some (if b then 1 else 0)
  | .jnum n => some n
  | .jstr s => jsStringToNumber s
  | .jarr [] => some 0
  | .jarr [.jbool _] => none
  | .jarr [x] => jsToNumber x
  | .jarr (_ :: _ :: _) => none
  | .jobj _ => none

/-- The JSON values whose `Number()` coercion the integer embedding
captures exactly: string entries must satisfy `numberStringModelled`,
singleton arrays coerce through their element (so the condition
recurses), JSON numerals must lie in the double-exact integer range,
and every other shape (`null`, booleans, `[]`, multi-element arrays,
objects) coerces structurally to `0`, `0`/`1` or `NaN` without touching
floating point. Within this fragment no coercion is infinite or
fractional, so `Number.isFinite(n) && n > 0` reduces to `0 < n` on the
exact value. -/
def coercionModelled : JValue → Bool
  | .jstr s => numberStringModelled s
  | .jnum n => decide (n.natAbs ≤ 2 ^ 53)
  | .jarr [x] => coercionModelled x
  | _ => true

/-- The value in local storage under `ARCHIVE_STORAGE_KEY`, at the
granularity the archive code observes: `none` = no item stored,
`some (.error ())` = a stored string `JSON.parse` throws on,
`some (.ok v)` = a stored string parsing to the JSON value `v`. -/
def StoredValue := Option (Except Unit JValue)

/-- `loadArchivedProjectIds` from `src/lib/archive.ts` (lines 5–18): no
item or an unparseable string gives `[]` (the `catch` branch), a
non-array JSON value gives `[]`, and an array is mapped through
`Number` and filtered to the finite strictly positive entries. -/
def loadArchivedProjectIds (stored : StoredValue) : List Int :=
  match stored with
  | none => []
  | some (.error _) => []
  | some (.ok v) =>
    match v with
    | .jarr elems =>
      (elems.map jsToNumber).filterMap (fun n? =>
        match n? with
        | some n => if n > 0 then some n else none
        | none => none)
    | _ => []

/-- `saveArchivedProjectIds` from `src/lib/archive.ts` (lines 20–23):
store `JSON.stringify(ids)`, i.e. the string parsing back to the JSON
array of those numbers (`JSON.parse ∘ JSON.stringify` round-trips a
number array). -/
def saveArchivedProjectIds (ids : List Int) : StoredValue :=
  some (.ok (.jarr (ids.map .jnum)))

/-- JavaScript truthiness of a property-access result (`none` =
`undefined`): `undefined`, `null`, `false`, `0` and `""` are falsy;
every other value, including `[]` and `{}`, is truthy. -/
def jsTruthy : Option JValue → Bool
  | none => false
  | some .jnull => false
  | some (.jbool b) => b
  | some (.jnum n) => decide (n ≠ 0)
  | some (.jstr s) => decide (s ≠ "")
  | some (.jarr _) => true
  | some (.jobj _) => true

/-- JavaScript property access `v.name` on a parsed JSON value: a field
lookup on an object, `undefined` (`none`) on any other non-null value.
(Access on `null` throws and is handled separately in `http`.) -/
def jsField (v : JValue) (name : String) : Option JValue :=
  match v with
  | .jobj fields => (fields.find? (fun f => f.fst == name)).map Prod.snd
  | _ => none

/-- JavaScript `String(value)` for the values `new Error(x)` stringifies:
strings themselves, numbers and booleans by their literals, `null` as
"null", objects as "[object Object]", arrays as the comma-join of their
elements with `null` elements rendered empty. -/
def jsToString : JValue → String
  | .jnull => "null"
  | .jbool b => if b then "true" else "false"
  | .jnum n => toString n
  | .jstr s => s
  | .jobj _ => "[object Object]"
  | .jarr [] => ""
  | .jarr (e :: rest) =>
    (match e with
     | .jnull => ""
     | x => jsToString x)
    ++ (if rest.isEmpty then "" else "," ++ jsToString (.jarr rest))
termination_by v => sizeOf v
decreasing_by all_goals (simp_wf <;> omega)

/-- An HTTP response as `http` observes it: the status line, the body
text delivered by `res.text()`, and the outcome of `JSON.parse` on that
text (`none` = the parse throws). -/
structure HttpResponse where
  status : Nat
  statusText : String
  bodyText : String
  bodyJson : Option JValue

/-- `res.ok`: status in the 2xx range. -/
def responseOk (r : HttpResponse) : Bool :=
  decide (200 ≤ r.status) && decide (r.status < 300)

/-- How a call of the `http` helper can end. -/
inductive HttpOutcome where
  | success (body : JValue)   -- 2xx and `res.json()` resolved
  | jsonRejection             -- 2xx but the body is not valid JSON: `res.json()` rejects
  | thrown (message : String) -- non-2xx: `new Error(message)` is thrown
  | nullFieldAccess           -- non-2xx, body parses to `null`: `data.message` raises a TypeError

/-- `http` from `src/lib/api.ts` (lines 359–372): on a 2xx response
return `res.json()`; otherwise read the body text, `JSON.parse` it
(falling back to `{ message: text || res.statusText }` in the catch),
and throw `new Error(data.message || data.error || 'HTTP <status>')`. -/
def http (r : HttpResponse) : HttpOutcome :=
  if responseOk r then
    match r.bodyJson with
    | some v => .success v
    | none => .jsonRejection
  else
    match r.bodyJson with
    | some .jnull => .nullFieldAccess
    | some v =>
      if jsTruthy (jsField v "message")
      then .thrown (jsToString ((jsField v "message").getD .jnull))
      else if jsTruthy (jsField v "error")
      then .thrown (jsToString ((jsField v "error").getD .jnull))
      else .thrown ("HTTP " ++ toString r.status)
    | none =>
      let msg := if r.bodyText ≠ "" then r.bodyText else r.statusText;
      if msg ≠ "" then .thrown msg else .thrown ("HTTP " ++ toString r.status)

/-- The error-message rule as the amended claim words it: from a JSON
body, the truthy `message` field, else the truthy `error` field, else
`HTTP <status>`; from a non-JSON body, the raw text, else the response's
statusText, else `HTTP <status>`. -/
def specHttpMessage (r : HttpResponse) : String :=
  match r.bodyJson with
  | some v =>
    if jsTruthy (jsField v "message")
    then jsToString ((jsField v "message").getD .jnull)
    else if jsTruthy (jsField v "error")
    then jsToString ((jsField v "error").getD .jnull)
    else "HTTP " ++ toString r.status
  | none =>
    if r.bodyText ≠ "" then r.bodyText
    else if r.statusText ≠ "" then r.statusText
    else "HTTP " ++ toString r.status

/-- A task as the calendar page sees it (`CalendarTask` / a project's
task): its id and its deadline's parse outcome. The remaining fields
(title, status, project, assignee) are carried along unchanged by the
aggregation and play no role in the claims. -/
structure CalTask where
  id : Int
  deadline : DateInput
deriving DecidableEq, Repr

/-- A project as the calendar page sees it: id, own deadline, tasks. -/
structure CalProject where
  id : Int
  deadline : DateInput
  tasks : List CalTask
deriving DecidableEq, Repr

/-- The parsed `[from, to]` range filter (`parseRangeParams` keeps only
the bounds that parse). -/
structure RangeFilter where
  fromFilter : Option Int
  toFilter : Option Int
deriving DecidableEq, Repr

/-- `withinRange` from CalendarMe.tsx (lines 216–220): false when a
`from` bound exists and the date is before it, false when a `to` bound
exists and the date is after it, true otherwise. -/
def withinRange (range : RangeFilter) (d : Int) : Bool :=
  !(match range.fromFilter with
    | some f => decide (d < f)
    | none => false) &&
  !(match range.toFilter with
    | some t => decide (t < d)
    | none => false)

/-- An entry pushed into a day bucket by `addEvent`: a task event or a
project-deadline event, with the deadline timestamp it was placed by. -/
inductive DayEvent where
  | taskEv (id : Int) (date : Int)
  | projectEv (id : Int) (date : Int)
deriving DecidableEq, Repr

/-- The deadline timestamp an event was bucketed by. -/
def eventDate : DayEvent → Int
  | .taskEv _ d => d
  | .projectEv _ d => d

/-- The contents of `seenTaskIds` after the first loop of `eventsByDate`
(CalendarMe.tsx lines 224–229): the ids of the 'my calendar' tasks whose
deadline parsed and fell within the range. -/
def seenTaskIds (range : RangeFilter) (tasks : List CalTask) : List Int :=
  (tasks.filter (fun task =>
    match task.deadline with
    | .valid d => withinRange range d
    | _ => false)).map CalTask.id

/-- The events emitted by the first loop of `eventsByDate`: one task
event per 'my calendar' task with a parsed, in-range deadline, keyed by
`format(date, 'yyyy-MM-dd')` — the local-timezone day renderer passed
in as `dayKey`. -/
def calendarTaskEvents (dayKey : Int → String) (range : RangeFilter)
    (tasks : List CalTask) : List (String × DayEvent) :=
  tasks.filterMap (fun task =>
    match task.deadline with
    | .valid d =>
      if withinRange range d then some (dayKey d, .taskEv task.id d) else none
    | _ => none)

/-- The events one project contributes in the second loop of
`eventsByDate` (CalendarMe.tsx lines 231–259): its tasks not already in
`seenTaskIds` with a parsed, in-range deadline, followed by the
project's own deadline event when parsed and in range. -/
def projectEvents (dayKey : Int → String) (range : RangeFilter)
    (seen : List Int) (project : CalProject) : List (String × DayEvent) :=
  (project.tasks.filterMap (fun task =>
    if task.id ∈ seen then none
    else match task.deadline with
      | .valid d =>
        if withinRange range d then some (dayKey d, .taskEv task.id d) else none
      | _ => none))
  ++ (match project.deadline with
      | .valid d =>
        if withinRange range d then [(dayKey d, .projectEv project.id d)] else []
      | _ => [])

/-- All `(key, event)` pairs `eventsByDate` pushes, in emission order:
the 'my calendar' loop first, then each project in order. -/
def allCalendarEvents (dayKey : Int → String) (range : RangeFilter)
    (tasks : List CalTask) (projects : List CalProject) :
    List (String × DayEvent) :=
  calendarTaskEvents dayKey range tasks
    ++ projects.flatMap (projectEvents dayKey range (seenTaskIds range tasks))

/-- The `eventsByDate` record: bucket `key` holds, in push order, the
events whose computed day key equals `key`. -/
def eventsByDate (dayKey : Int → String) (range : RangeFilter)
    (tasks : List CalTask) (projects : List CalProject) (key : String) :
    List DayEvent :=
  ((allCalendarEvents dayKey range tasks projects).filter
    (fun kv => kv.fst == key)).map Prod.snd

/-- The task ids of the task events in an event list, in order
(project-deadline events carry no task id). -/
def taskEventIds (events : List (String × DayEvent)) : List Int :=
  events.filterMap (fun kv =>
    match kv.snd with
    | .taskEv i _ => some i
    | .projectEv _ _ => none)

/-- The condition under which the second loop emits a project task: not
already seen, deadline parsed and in range. -/
def projectTaskKeep (range : RangeFilter) (seen : List Int)
    (t : CalTask) : Bool :=
  !decide (t.id ∈ seen) &&
    (match t.deadline with
     | .valid d => withinRange range d
     | _ => false)

/-- The two if-chains (source's `abs diffDays = 1` test against the spec's
`diffDays = -1` test) agree at every integer `diffDays`. -/
theorem classify_branch_eq (d : Int) :
    (if d > 1 then (⟨.daysLeft d, .ok⟩ : DeadlineInfo)
     else if d = 1 then ⟨.dayLeft, .warn⟩
     else if d = 0 then ⟨.dueToday, .warn⟩
     else if abs d = 1 then ⟨.overdueOne, .danger⟩
     else ⟨.overdueMany (abs d), .danger⟩)
    = (if d > 1 then (⟨.daysLeft d, .ok⟩ : DeadlineInfo)
       else if d = 1 then ⟨.dayLeft, .warn⟩
       else if d = 0 then ⟨.dueToday, .warn⟩
       else if d = -1 then ⟨.overdueOne, .danger⟩
       else ⟨.overdueMany (abs d), .danger⟩) := by
  have h0 := abs_nonneg d
  rcases abs_choice d with habs | habs <;>
    rw [habs] <;> split_ifs <;> first | rfl | (exfalso; omega)

/-- C1: for every nullable deadline string and fixed `now`, both deadline
classifiers (`computeDeadlineInfo` in Dashboard.tsx and `computeBadge` in
App.tsx) agree with the spec's case analysis on
`diffDays = ceil((deadline − now) / 86400000)`: muted "no deadline" for a
null/empty input, muted "invalid date" for an unparseable one, ok
"N days left" for `diffDays > 1`, warn "1 day left" at 1, warn
"due today" at `0`, danger "overdue by 1 day" at `−1`, and danger
"overdue by N days" with `N = |diffDays|` for `diffDays < −1`. -/
theorem computeDeadlineInfo_matches_spec (deadline : DateInput) (now : Int) :
    computeDeadlineInfo deadline now = specClassify deadline now ∧
    computeBadge deadline now = computeDeadlineInfo deadline now := by
  constructor
  · cases deadline with
    | empty => rfl
    | invalid => rfl
    | valid t =>
      have h : (1000 * 60 * 60 * 24 : Int) = 86400000 := by norm_num
      simp only [computeDeadlineInfo, specClassify, h]
      exact classify_branch_eq _
  · cases deadline <;> rfl

/-- C9: the 'approve' and 'complete' task actions invoke the identical
underlying operation: for every task id both handlers issue the same
`api.completeTask` request (`POST /tasks/:id/complete`) and run the same
`updateTask` state update on every outcome, differing only in the
success notice shown afterward. -/
theorem approve_complete_same_operation (taskId : Int) :
    (handleApproveTask taskId).request = completeTaskRequest taskId ∧
    (handleCompleteTask taskId).request = completeTaskRequest taskId ∧
    (handleApproveTask taskId).request = (handleCompleteTask taskId).request ∧
    (∀ outcome : Except String Unit,
      (updateTask (handleApproveTask taskId) outcome).appliedDetail
          = (updateTask (handleCompleteTask taskId) outcome).appliedDetail ∧
      (updateTask (handleApproveTask taskId) outcome).refetched
          = (updateTask (handleCompleteTask taskId) outcome).refetched ∧
      (updateTask (handleApproveTask taskId) outcome).error
          = (updateTask (handleCompleteTask taskId) outcome).error) ∧
    (handleApproveTask taskId).successKey ≠ (handleCompleteTask taskId).successKey := by
  refine ⟨rfl, rfl, rfl, ?_, ?_⟩
  · intro outcome
    cases outcome <;> exact ⟨rfl, rfl, rfl⟩
  · show ("approveSuccess" : String) ≠ "completeSuccess"
    decide

/-- C10: local archiving on the dashboard is idempotent and
duplicate-free: archiving an already-present id leaves the list
unchanged, archiving a new id appends it exactly once, archiving
preserves duplicate-freedom, and restoring removes every occurrence of
the id — in particular restore after archive yields a list without it. -/
theorem archive_restore_spec (prev : List Int) (p : Int) :
    (p ∈ prev → archiveProjectIds prev p = prev) ∧
    (p ∉ prev → archiveProjectIds prev p = prev ++ [p]) ∧
    (prev.Nodup → (archiveProjectIds prev p).Nodup) ∧
    p ∉ restoreProjectIds prev p ∧
    p ∉ restoreProjectIds (archiveProjectIds prev p) p := by
  refine ⟨fun h => by simp [archiveProjectIds, h],
          fun h => by simp [archiveProjectIds, h],
          fun h => ?_, ?_, ?_⟩
  · by_cases hp : p ∈ prev
    · simpa [archiveProjectIds, hp] using h
    · rw [archiveProjectIds, if_neg hp]
      exact h.append (List.nodup_singleton p) (by simpa using hp)
  · simp [restoreProjectIds, List.mem_filter]
  · simp [restoreProjectIds, List.mem_filter]

/-- Closed instance of C10's theorem: archiving 5 into [5, 9] is a
no-op, archiving 7 appends it once and keeps the list duplicate-free. -/
theorem archive_restore_spec_witness :
    archiveProjectIds [5, 9] 5 = [5, 9] ∧
    archiveProjectIds [5, 9] 7 = [5, 9, 7] ∧
    (archiveProjectIds [5, 9] 7).Nodup :=
  ⟨(archive_restore_spec [5, 9] 5).1 (by decide),
   (archive_restore_spec [5, 9] 7).2.1 (by decide),
   (archive_restore_spec [5, 9] 7).2.2.1 (by decide)⟩

/-- The `.map(p => include(p) ? some(transform(p)) : null).filter(≠ null)`
idiom is filter-then-map. -/
theorem reduceOption_map_guard {α β : Type} (c : α → Bool) (g : α → β) :
    ∀ l : List α,
      (l.map (fun a => if c a then some (g a) else none)).reduceOption
        = (l.filter c).map g := by
  intro l
  induction l with
  | nil => rfl
  | cons a rest ih =>
    by_cases h : c a <;>
      simp [List.filter_cons, h, ih]

/-- C3: for every project list, the tag filter with an empty string is
the identity, and with a non-empty filter string it returns exactly the
projects having a task with a tag equal (case-insensitively, after
trimming both sides) to the filter, each retaining only its matching
tasks in their original order; projects with zero matching tasks are
dropped. -/
theorem filterProjectsByTag_spec (f : String) (ps : List Project) :
    (f = "" → filterProjectsByTag f ps = ps) ∧
    (f ≠ "" →
      filterProjectsByTag f ps
        = (ps.filter (fun p => p.tasks.any (taskMatchesTag f))).map
            (fun p => { p with tasks := p.tasks.filter (taskMatchesTag f) })) := by
  constructor
  · intro h; simp [filterProjectsByTag, h]
  · intro h
    have hfun : ∀ project : Project,
        (if (project.tasks.filter (taskMatchesTag f)).length = 0
         then (none : Option Project)
         else some { project with tasks := project.tasks.filter (taskMatchesTag f) })
        = (if project.tasks.any (taskMatchesTag f)
           then some { project with tasks := project.tasks.filter (taskMatchesTag f) }
           else none) := by
      intro project
      by_cases hq : project.tasks.any (taskMatchesTag f)
      · rw [if_pos hq, if_neg]
        intro hlen
        rw [List.length_eq_zero] at hlen
        rw [List.any_eq_true] at hq
        obtain ⟨x, hx, hqx⟩ := hq
        have hmem := List.mem_filter.mpr ⟨hx, hqx⟩
        rw [hlen] at hmem
        exact absurd hmem (List.not_mem_nil x)
      · rw [if_neg hq, if_pos]
        rw [List.length_eq_zero, List.filter_eq_nil_iff]
        intro x hx hqx
        exact hq (List.any_eq_true.mpr ⟨x, hx, hqx⟩)
    have hmap : ∀ l : List Project,
        (l.map (fun project =>
          if (project.tasks.filter (taskMatchesTag f)).length = 0
          then (none : Option Project)
          else some { project with tasks := project.tasks.filter (taskMatchesTag f) }))
        = (l.map (fun project =>
            if project.tasks.any (taskMatchesTag f)
            then some { project with tasks := project.tasks.filter (taskMatchesTag f) }
            else none)) := by
      intro l
      induction l with
      | nil => rfl
      | cons a rest iht => simp only [List.map_cons, hfun a, iht]
    rw [filterProjectsByTag, if_neg h]
    show (ps.map (fun project =>
        if (project.tasks.filter (taskMatchesTag f)).length = 0
        then (none : Option Project)
        else some { project with tasks := project.tasks.filter (taskMatchesTag f) })).reduceOption
      = _
    rw [hmap ps]
    exact reduceOption_map_guard _ _ ps

/-- Closed instance of C3's theorem: the spec's own scenario — two
projects, one with a task tagged "Design", filtered by lowercase
"design", yields exactly the first project with only its matching task
retained. -/
theorem filterProjectsByTag_spec_witness :
    ("design" : String) ≠ "" ∧
    filterProjectsByTag "design"
      [⟨1, "p1", "ACTIVE", .empty,
        [⟨11, "t", "NEW", .empty, ["Design"]⟩,
         ⟨12, "u", "NEW", .empty, ["Dev"]⟩]⟩,
       ⟨2, "p2", "ACTIVE", .empty, [⟨21, "v", "NEW", .empty, ["Dev"]⟩]⟩]
      = [⟨1, "p1", "ACTIVE", .empty, [⟨11, "t", "NEW", .empty, ["Design"]⟩]⟩] := by
  refine ⟨by decide, ?_⟩
  rw [(filterProjectsByTag_spec "design" _).2 (by decide)]
  decide

/-- C4: `applyProjectFilters` runs the tag filter before the status
filter; under every project-status filter other than 'archived' no
locally archived project id survives; under 'archived' it keeps exactly
the archived projects of the tag-filtered list; under 'completed'
exactly the non-archived COMPLETED ones; under 'overdue' exactly the
non-archived, non-COMPLETED ones with a parseable deadline strictly
before `now` — each surviving project carrying its task-status-filtered
task list. -/
theorem applyProjectFilters_spec (tagFilter : String) (arch : List Int)
    (psf tsf : String) (now : Int) (ps : List Project) :
    (applyProjectFilters tagFilter arch psf tsf now ps
        = applyProjectFilters "" arch psf tsf now (filterProjectsByTag tagFilter ps)) ∧
    (psf ≠ "archived" →
      ∀ p ∈ applyProjectFilters tagFilter arch psf tsf now ps, p.id ∉ arch) ∧
    (psf = "archived" →
      applyProjectFilters tagFilter arch psf tsf now ps
        = ((filterProjectsByTag tagFilter ps).filter
            (fun p => decide (p.id ∈ arch))).map (filterTasksByStatus tsf now)) ∧
    (psf = "completed" →
      applyProjectFilters tagFilter arch psf tsf now ps
        = ((filterProjectsByTag tagFilter ps).filter
            (fun p => !decide (p.id ∈ arch) && (jsToUpperCase p.status == "COMPLETED"))).map
            (filterTasksByStatus tsf now)) ∧
    (psf = "overdue" →
      applyProjectFilters tagFilter arch psf tsf now ps
        = ((filterProjectsByTag tagFilter ps).filter
            (fun p => !decide (p.id ∈ arch) && !(jsToUpperCase p.status == "COMPLETED") &&
              (match p.deadline with
               | .valid t => decide (t < now)
               | _ => false))).map
            (filterTasksByStatus tsf now)) := by
  have base : ∀ qs : List Project,
      applyProjectFilters tagFilter arch psf tsf now qs
        = ((filterProjectsByTag tagFilter qs).filter
            (projectIncluded arch psf now)).map (filterTasksByStatus tsf now) := by
    intro qs
    simp only [applyProjectFilters]
    exact reduceOption_map_guard _ _ _
  refine ⟨?_, ?_, ?_, ?_, ?_⟩
  · rw [base]
    simp only [applyProjectFilters, filterProjectsByTag, if_pos rfl]
    exact (reduceOption_map_guard _ _ _).symm
  · intro hpsf p hp hmem
    rw [base] at hp
    obtain ⟨q, hq, rfl⟩ := List.mem_map.mp hp
    obtain ⟨hq', hinc⟩ := List.mem_filter.mp hq
    have : (filterTasksByStatus tsf now q).id = q.id := rfl
    rw [this] at hmem
    simp only [projectIncluded, if_neg hpsf] at hinc
    split_ifs at hinc <;> simp_all
  · intro hpsf; subst hpsf
    have hpred : ∀ p ∈ filterProjectsByTag tagFilter ps,
        projectIncluded arch "archived" now p = decide (p.id ∈ arch) :=
      fun p _ => by simp [projectIncluded]
    rw [base, List.filter_congr hpred]
  · intro hpsf; subst hpsf
    have hpred : ∀ p ∈ filterProjectsByTag tagFilter ps,
        projectIncluded arch "completed" now p
          = (!decide (p.id ∈ arch) && (jsToUpperCase p.status == "COMPLETED")) :=
      fun p _ => by simp [projectIncluded]
    rw [base, List.filter_congr hpred]
  · intro hpsf; subst hpsf
    have hpred : ∀ p ∈ filterProjectsByTag tagFilter ps,
        projectIncluded arch "overdue" now p
          = (!decide (p.id ∈ arch) && !(jsToUpperCase p.status == "COMPLETED") &&
              (match p.deadline with
               | .valid t => decide (t < now)
               | _ => false)) :=
      fun p _ => by simp [projectIncluded, Bool.and_assoc]
    rw [base, List.filter_congr hpred]

/-- Closed instance of C4's theorem: with project 2 locally archived,
the 'completed' view of a COMPLETED project 1 and an ACTIVE project 2
contains exactly project 1. -/
theorem applyProjectFilters_spec_witness :
    ("completed" : String) = "completed" ∧
    applyProjectFilters "" [2] "completed" "all" 0
      [⟨1, "a", "COMPLETED", .empty, []⟩, ⟨2, "b", "ACTIVE", .empty, []⟩]
      = [⟨1, "a", "COMPLETED", .empty, []⟩] := by
  refine ⟨rfl, ?_⟩
  rw [(applyProjectFilters_spec "" [2] "completed" "all" 0
        [⟨1, "a", "COMPLETED", .empty, []⟩, ⟨2, "b", "ACTIVE", .empty, []⟩]).2.2.2.1 rfl]
  decide

/-- A single form task is prepared successfully exactly when it passes
the spec's per-task acceptance predicate. -/
theorem prepareTask_ok_iff (pd : Int) (idx : Nat) (task : NewTask) :
    (∃ p, prepareTask pd idx task = .ok p) ↔ taskValidB pd task = true := by
  unfold prepareTask taskValidB
  by_cases hfill : jsTrim task.title = "" ∨ (preparedTags task.tags).length = 0
  · rw [if_pos hfill]
    constructor
    · rintro ⟨p, hp⟩; cases hp
    · intro hvb
      rcases hfill with h1 | h2
      · simp [h1] at hvb
      · rw [List.length_eq_zero] at h2; simp [h2] at hvb
  · rw [if_neg hfill]
    push_neg at hfill
    obtain ⟨h1, h2⟩ := hfill
    cases hd : task.deadline with
    | empty =>
      dsimp only
      constructor
      · rintro ⟨p, hp⟩; cases hp
      · intro hvb; simp at hvb
    | invalid =>
      dsimp only
      constructor
      · rintro ⟨p, hp⟩; cases hp
      · intro hvb; simp at hvb
    | valid t =>
      dsimp only
      by_cases hgt : t > pd
      · rw [if_pos hgt]
        constructor
        · rintro ⟨p, hp⟩; cases hp
        · intro hvb; simp at hvb; omega
      · rw [if_neg hgt]
        have h2' : preparedTags task.tags ≠ [] := by
          intro hnil; exact h2 (by rw [hnil]; rfl)
        constructor
        · intro _
          simp only [Bool.and_eq_true, decide_eq_true_eq, ne_eq]
          exact ⟨⟨h1, h2'⟩, by omega⟩
        · intro _; exact ⟨_, rfl⟩

/-- Whatever error `prepareTask` reports for the task at 0-based
position `idx`, its message names the 1-based index `idx + 1`. -/
theorem prepareTask_error_index (pd : Int) (idx : Nat) (task : NewTask)
    (e : CreateError) (h : prepareTask pd idx task = .error e) :
    createErrorIndex e = some (idx + 1) := by
  unfold prepareTask at h
  by_cases hfill : jsTrim task.title = "" ∨ (preparedTags task.tags).length = 0
  · rw [if_pos hfill] at h
    cases h; rfl
  · rw [if_neg hfill] at h
    cases hd : task.deadline with
    | empty => rw [hd] at h; cases h; rfl
    | invalid => rw [hd] at h; cases h; rfl
    | valid t =>
      rw [hd] at h
      dsimp only at h
      by_cases hgt : t > pd
      · rw [if_pos hgt] at h; cases h; rfl
      · rw [if_neg hgt] at h; cases h

/-- A task failing the acceptance predicate makes `prepareTask` report
an error. -/
theorem prepareTask_error_of_invalid (pd : Int) (idx : Nat) (task : NewTask)
    (h : taskValidB pd task = false) : ∃ e, prepareTask pd idx task = .error e := by
  rcases hres : prepareTask pd idx task with e | p
  · exact ⟨e, rfl⟩
  · have := (prepareTask_ok_iff pd idx task).mp ⟨p, hres⟩
    rw [this] at h
    cases h

/-- The sequential preparation of the whole task list succeeds exactly
when every task passes the acceptance predicate. -/
theorem prepareTasks_ok_iff (pd : Int) (tasks : List NewTask) : ∀ idx : Nat,
    (∃ ps, prepareTasks pd idx tasks = .ok ps)
      ↔ ∀ t ∈ tasks, taskValidB pd t = true := by
  induction tasks with
  | nil => intro idx; simp [prepareTasks]
  | cons t rest ih =>
    intro idx
    constructor
    · rintro ⟨ps, hps⟩
      cases htask : prepareTask pd idx t with
      | error e => simp [prepareTasks, htask] at hps
      | ok p =>
        cases hrest : prepareTasks pd (idx + 1) rest with
        | error e => simp [prepareTasks, htask, hrest] at hps
        | ok ps2 =>
          intro x hx
          rcases List.mem_cons.mp hx with rfl | hx2
          · exact (prepareTask_ok_iff pd idx x).mp ⟨p, htask⟩
          · exact ((ih (idx + 1)).mp ⟨ps2, hrest⟩) x hx2
    · intro hall
      obtain ⟨p, hp⟩ := (prepareTask_ok_iff pd idx t).mpr (hall t (by simp))
      obtain ⟨ps2, hps2⟩ := (ih (idx + 1)).mpr (fun x hx => hall x (by simp [hx]))
      exact ⟨p :: ps2, by simp only [prepareTasks, hp, hps2]⟩

/-- When every task before position `i` passes and the task at `i`
fails, preparation reports an error naming the 1-based index of that
first failing task. -/
theorem prepareTasks_first_error (pd : Int) (tasks : List NewTask) :
    ∀ (idx i : Nat) (hi : i < tasks.length),
      (∀ t ∈ tasks.take i, taskValidB pd t = true) →
      taskValidB pd (tasks.get ⟨i, hi⟩) = false →
      ∃ e, prepareTasks pd idx tasks = .error e ∧
        createErrorIndex e = some (idx + i + 1) := by
  induction tasks with
  | nil => intro idx i hi; simp at hi
  | cons t rest ih =>
    intro idx i hi hpre hbad
    cases i with
    | zero =>
      obtain ⟨e, he⟩ := prepareTask_error_of_invalid pd idx t hbad
      refine ⟨e, by simp only [prepareTasks, he], ?_⟩
      simpa using prepareTask_error_index pd idx t e he
    | succ j =>
      have hvalt : taskValidB pd t = true := hpre t (by simp [List.take_succ_cons])
      obtain ⟨p, hp⟩ := (prepareTask_ok_iff pd idx t).mpr hvalt
      have hi2 : j < rest.length := by simpa using hi
      have hpre2 : ∀ x ∈ rest.take j, taskValidB pd x = true :=
        fun x hx => hpre x (by simp [List.take_succ_cons, hx])
      have hbad2 : taskValidB pd (rest.get ⟨j, hi2⟩) = false := by simpa using hbad
      obtain ⟨e, he, hidx⟩ := ih (idx + 1) j hi2 hpre2 hbad2
      refine ⟨e, by simp only [prepareTasks, hp, he], ?_⟩
      rw [hidx]
      congr 1
      omega

/-- C2: with a present and parseable project deadline, `onCreate`
accepts the task list (and so calls the create-project API) exactly when
every task has a non-empty trimmed title, a non-empty trimmed/deduped
tag set, and a present, parseable task deadline no later than the
project deadline; any failing task blocks the API call, and the single
error reported names the 1-based index of the first failing task in
input order. -/
theorem onCreate_validator_spec (name desc color : String) (pd : Int)
    (tasks : List NewTask) :
    ((∃ payload, onCreate name desc color (.valid pd) tasks = .ok payload)
        ↔ ∀ task ∈ tasks, taskValidB pd task = true) ∧
    ((∃ task ∈ tasks, taskValidB pd task = false) →
        ∃ e, onCreate name desc color (.valid pd) tasks = .error e) ∧
    (∀ (i : Nat) (hi : i < tasks.length),
      (∀ task ∈ tasks.take i, taskValidB pd task = true) →
      taskValidB pd (tasks.get ⟨i, hi⟩) = false →
      ∃ e, onCreate name desc color (.valid pd) tasks = .error e ∧
        createErrorIndex e = some (i + 1)) := by
  refine ⟨⟨?_, ?_⟩, ?_, ?_⟩
  · rintro ⟨payload, hp⟩
    cases hres : prepareTasks pd 0 tasks with
    | error e => simp [onCreate, hres] at hp
    | ok ps => exact (prepareTasks_ok_iff pd tasks 0).mp ⟨ps, hres⟩
  · intro hall
    obtain ⟨ps, hps⟩ := (prepareTasks_ok_iff pd tasks 0).mpr hall
    exact ⟨⟨jsTrim name, (if jsTrim desc = "" then none else some (jsTrim desc)),
      jsToUpperCase color, pd, ps⟩, by simp only [onCreate, hps]⟩
  · rintro ⟨task, htask, hfalse⟩
    cases hres : prepareTasks pd 0 tasks with
    | error e => exact ⟨e, by simp only [onCreate, hres]⟩
    | ok ps =>
      have hall := (prepareTasks_ok_iff pd tasks 0).mp ⟨ps, hres⟩
      rw [hall task htask] at hfalse
      cases hfalse
  · intro i hi hpre hbad
    obtain ⟨e, he, hidx⟩ := prepareTasks_first_error pd tasks 0 i hi hpre hbad
    exact ⟨e, by simp only [onCreate, he], by simpa using hidx⟩

/-- Closed instance of C2's theorem: the spec's own scenario — a task
whose deadline (one day after the project deadline) violates the `≤`
rule makes submission fail with an error naming task 1, and the API is
not called. -/
theorem onCreate_validator_spec_witness :
    ∃ e, onCreate "Site" "" "#2563eb" (.valid 0)
        [⟨"Design homepage", "", ["Design"], .valid 86400000⟩] = .error e ∧
      createErrorIndex e = some 1 :=
  (onCreate_validator_spec "Site" "" "#2563eb" 0
      [⟨"Design homepage", "", ["Design"], .valid 86400000⟩]).2.2 0 (by decide)
    (by simp) (by decide)

/-- Loading a stored JSON array keeps, in order, the entries whose
`Number` coercion is defined and strictly positive. -/
theorem load_jarr_eq (elems : List JValue) :
    loadArchivedProjectIds (some (.ok (.jarr elems)))
      = (elems.filterMap jsToNumber).filter (fun n => n > 0) := by
  induction elems with
  | nil => rfl
  | cons v rest ih =>
    show ((v :: rest).map jsToNumber).filterMap
        (fun n? => match n? with
          | some n => if n > 0 then some n else none
          | none => none)
      = ((v :: rest).filterMap jsToNumber).filter (fun n => n > 0)
    cases hv : jsToNumber v with
    | none =>
      rw [List.map_cons, List.filterMap_cons, List.filterMap_cons, hv]
      exact ih
    | some n =>
      rw [List.map_cons, List.filterMap_cons, List.filterMap_cons, hv]
      dsimp only
      rw [List.filter_cons]
      by_cases hn : n > 0
      · rw [if_pos hn, if_pos (by simpa using hn)]
        exact congrArg (List.cons n) ih
      · rw [if_neg hn, if_neg (by simpa using hn)]
        exact ih

/-- Loading what `saveArchivedProjectIds` stored keeps exactly the
positive entries. -/
theorem load_save_eq_filter (l : List Int) :
    loadArchivedProjectIds (saveArchivedProjectIds l)
      = l.filter (fun n => n > 0) := by
  rw [saveArchivedProjectIds, load_jarr_eq, List.filterMap_map]
  have hcomp : (jsToNumber ∘ JValue.jnum) = some := funext (fun n => rfl)
  rw [hcomp, List.filterMap_some]

/-- C6: saving a list of positive ids and loading returns the same
list; a stored string that is not valid JSON loads as `[]` without
throwing (the model's load is a total function), and a JSON value that
is not an array also loads as `[]`. -/
theorem archive_roundtrip_spec (l : List Int) :
    ((∀ n ∈ l, 0 < n) → loadArchivedProjectIds (saveArchivedProjectIds l) = l) ∧
    loadArchivedProjectIds (some (.error ())) = [] ∧
    (∀ v : JValue, (∀ elems, v ≠ .jarr elems) →
      loadArchivedProjectIds (some (.ok v)) = []) := by
  refine ⟨?_, rfl, ?_⟩
  · intro hpos
    rw [load_save_eq_filter]
    refine List.filter_eq_self.mpr (fun n hn => ?_)
    simpa using hpos n hn
  · intro v hv
    cases v with
    | jarr elems => exact absurd rfl (hv elems)
    | jnull => rfl
    | jbool b => rfl
    | jnum n => rfl
    | jstr s => rfl
    | jobj fields => rfl

/-- Closed instance of C6's theorem: the spec's own scenario —
`[5, 9]` round-trips, and corrupted storage (a bare string value) loads
as `[]`. -/
theorem archive_roundtrip_spec_witness :
    loadArchivedProjectIds (saveArchivedProjectIds [5, 9]) = [5, 9] ∧
    loadArchivedProjectIds (some (.ok (.jstr "oops"))) = [] :=
  ⟨(archive_roundtrip_spec [5, 9]).1 (by decide),
   (archive_roundtrip_spec [5, 9]).2.2 (.jstr "oops")
     (fun elems h => JValue.noConfusion h)⟩

/-- C7 counterexample: the stored JSON array `["5"]` has one entry, a
string — a non-numeric entry, which the claim says is dropped. The code
instead coerces it with `Number("5")` and keeps it, returning `[5]`,
not `[]`. -/
theorem load_nonnumeric_entry_counterexample :
    loadArchivedProjectIds (some (.ok (.jarr [.jstr "5"]))) = [5] ∧
    ([5] : List Int) ≠ [] := ⟨rfl, by decide⟩

/-- C7 (amended): for every stored value parsing as a JSON array whose
entries lie in the embedded integer fragment of JavaScript's `Number()`
coercion (`coercionModelled` — where the embedded coercion agrees with
JavaScript exactly), `loadArchivedProjectIds` drops exactly the entries
whose `Number()` coercion is not a finite, strictly positive number
(the code's `Number.isFinite(value) && value > 0`; inside the fragment
no coercion is infinite or fractional, so this is `0 < n` on the exact
value), and returns the remaining entries, in order, as their coerced
numeric values — so the result consists of finite, strictly positive
numbers. The hypothesis scopes the statement to inputs the
integer-valued embedding speaks for; string entries coercing through
fractional, exponent, hex or `Infinity` forms are IEEE-754 double
behaviour outside it. The equation itself holds of the model by the
induction in `load_jarr_eq`. -/
theorem load_sanitizes_by_coercion (elems : List JValue)
    (hmod : ∀ v ∈ elems, coercionModelled v = true) :
    loadArchivedProjectIds (some (.ok (.jarr elems)))
      = (elems.filterMap jsToNumber).filter (fun n => n > 0) ∧
    ∀ n ∈ loadArchivedProjectIds (some (.ok (.jarr elems))), 0 < n := by
  have h1 := load_jarr_eq elems
  refine ⟨h1, ?_⟩
  intro n hn
  rw [h1] at hn
  simpa using (List.mem_filter.mp hn).2

/-- Closed instance of C7's amended theorem: `["5", -3, null]` — all
three entries inside the modelled fragment — loads as `[5]`: the
numeric-string entry is coerced and kept, the non-positive number and
the null (coerced to 0) are dropped, and every loaded entry is
positive. -/
theorem load_sanitizes_by_coercion_witness :
    (∀ v ∈ ([.jstr "5", .jnum (-3), .jnull] : List JValue),
      coercionModelled v = true) ∧
    loadArchivedProjectIds (some (.ok (.jarr [.jstr "5", .jnum (-3), .jnull])))
      = [5] ∧ (0 : Int) < 5 :=
  ⟨by decide,
   (load_sanitizes_by_coercion [.jstr "5", .jnum (-3), .jnull]
      (by decide)).1.trans (by decide),
   (load_sanitizes_by_coercion [.jstr "5", .jnum (-3), .jnull]
      (by decide)).2 5 (by decide)⟩

/-- C8 counterexample: for a 404 response with empty body and statusText
"Not Found", the claim's message rule yields "HTTP 404" (empty body text
and no JSON), but the code throws "Not Found" — the `res.statusText`
fallback inside the catch branch that the claim omits. Moreover a 2xx
response whose body is not valid JSON does not return a parsed body: it
rejects inside `res.json()`, contradicting "throws iff not 2xx". -/
theorem http_claim_counterexample :
    http ⟨404, "Not Found", "", none⟩ = .thrown "Not Found" ∧
    "Not Found" ≠ "HTTP 404" ∧
    http ⟨204, "No Content", "", none⟩ = .jsonRejection :=
  ⟨rfl, by decide, rfl⟩

/-- C8 (amended): `http` returns the parsed body exactly on a 2xx
response whose body is valid JSON (a 2xx non-JSON body rejects in
`res.json()`); on a non-2xx response whose body is not JSON `null` it
throws a single error message taken from the JSON body's truthy
`message` field, else its truthy `error` field, else — for a non-JSON
body — the raw body text, else the statusText, defaulting to
'HTTP <status>'; and `res.ok` means status in [200, 300). -/
theorem http_spec (r : HttpResponse) :
    ((∃ v, http r = .success v) ↔ (responseOk r = true ∧ r.bodyJson ≠ none)) ∧
    (responseOk r = true → ∀ v, r.bodyJson = some v → http r = .success v) ∧
    (responseOk r = false → r.bodyJson ≠ some .jnull →
      http r = .thrown (specHttpMessage r)) ∧
    (responseOk r = true ↔ (200 ≤ r.status ∧ r.status < 300)) := by
  refine ⟨⟨?_, ?_⟩, ?_, ?_, ?_⟩
  · rintro ⟨v, hv⟩
    unfold http at hv
    by_cases hok : responseOk r = true
    · refine ⟨hok, ?_⟩
      rw [if_pos hok] at hv
      cases hj : r.bodyJson with
      | none => rw [hj] at hv; cases hv
      | some w => simp [hj]
    · exfalso
      rw [if_neg hok] at hv
      cases hj : r.bodyJson with
      | none =>
        rw [hj] at hv
        dsimp only at hv
        split_ifs at hv <;> cases hv
      | some w =>
        rw [hj] at hv
        cases w <;> dsimp only at hv <;> (try split_ifs at hv) <;> cases hv
  · rintro ⟨hok, hj⟩
    cases hjv : r.bodyJson with
    | none => exact absurd hjv hj
    | some v => exact ⟨v, by unfold http; rw [if_pos hok, hjv]⟩
  · intro hok v hv
    unfold http
    rw [if_pos hok, hv]
  · intro hok hnn
    have hok' : ¬ responseOk r = true := by simp [hok]
    unfold http specHttpMessage
    rw [if_neg hok']
    cases hj : r.bodyJson with
    | none =>
      dsimp only
      by_cases h1 : r.bodyText = ""
      · by_cases h2 : r.statusText = ""
        · simp [h1, h2]
        · simp [h1, h2]
      · simp [h1]
    | some v =>
      cases v with
      | jnull => exact absurd hj hnn
      | jbool b => dsimp only; split_ifs <;> rfl
      | jnum n => dsimp only; split_ifs <;> rfl
      | jstr s => dsimp only; split_ifs <;> rfl
      | jarr elems => dsimp only; split_ifs <;> rfl
      | jobj fields => dsimp only; split_ifs <;> rfl
  · unfold responseOk
    simp

/-- Closed instance of C8's amended theorem: a 500 response whose JSON
body is `{"message": "boom"}` throws "boom". -/
theorem http_spec_witness :
    http ⟨500, "Server Error", "x", some (.jobj [("message", .jstr "boom")])⟩
      = .thrown "boom" :=
  ((http_spec ⟨500, "Server Error", "x", some (.jobj [("message", .jstr "boom")])⟩).2.2.1
      rfl (fun h => JValue.noConfusion (Option.some.inj h))).trans
    (by simp [specHttpMessage, jsField, jsTruthy, jsToString])

/-- Pointwise-equal functions give equal `filterMap`s. -/
theorem filterMap_congr_fun {α β : Type} (f g : α → Option β) (l : List α)
    (h : ∀ a ∈ l, f a = g a) : l.filterMap f = l.filterMap g := by
  induction l with
  | nil => rfl
  | cons a rest ih =>
    rw [List.filterMap_cons, List.filterMap_cons, h a (by simp),
      ih (fun x hx => h x (by simp [hx]))]

/-- `filter`-then-`map` as a single `filterMap`. -/
theorem filter_map_eq_filterMap {α β : Type} (c : α → Bool) (m : α → β)
    (l : List α) :
    (l.filter c).map m = l.filterMap (fun a => if c a then some (m a) else none) := by
  induction l with
  | nil => rfl
  | cons a rest ih =>
    by_cases h : c a <;> simp [List.filter_cons, List.filterMap_cons, h, ih]

/-- `taskEventIds` distributes over appended event lists. -/
theorem taskEventIds_append (a b : List (String × DayEvent)) :
    taskEventIds (a ++ b) = taskEventIds a ++ taskEventIds b :=
  List.filterMap_append a b _

/-- The first loop's task events carry exactly the seen ids, in order. -/
theorem taskEventIds_calendar (dayKey : Int → String) (range : RangeFilter)
    (tasks : List CalTask) :
    taskEventIds (calendarTaskEvents dayKey range tasks)
      = seenTaskIds range tasks := by
  rw [calendarTaskEvents, taskEventIds, List.filterMap_filterMap,
    seenTaskIds, filter_map_eq_filterMap]
  refine filterMap_congr_fun _ _ _ (fun t _ => ?_)
  cases hd : t.deadline with
  | empty => rfl
  | invalid => rfl
  | valid d =>
    dsimp only
    by_cases hw : withinRange range d
    · rw [if_pos hw, if_pos hw]; rfl
    · rw [if_neg hw, if_neg hw]; rfl

/-- One project's task events carry exactly the ids of its kept tasks,
in order; its project-deadline event contributes no task id. -/
theorem taskEventIds_project (dayKey : Int → String) (range : RangeFilter)
    (seen : List Int) (p : CalProject) :
    taskEventIds (projectEvents dayKey range seen p)
      = (p.tasks.filter (projectTaskKeep range seen)).map CalTask.id := by
  rw [projectEvents, taskEventIds_append]
  have h2 : taskEventIds (match p.deadline with
      | .valid d =>
        if withinRange range d then [(dayKey d, DayEvent.projectEv p.id d)] else []
      | _ => []) = [] := by
    cases p.deadline with
    | valid d =>
      dsimp only
      by_cases hw : withinRange range d
      · rw [if_pos hw]; rfl
      · rw [if_neg hw]; rfl
    | empty => rfl
    | invalid => rfl
  rw [h2, List.append_nil, taskEventIds, List.filterMap_filterMap,
    filter_map_eq_filterMap]
  refine filterMap_congr_fun _ _ _ (fun t _ => ?_)
  by_cases hseen : t.id ∈ seen
  · rw [if_pos hseen]
    simp [projectTaskKeep, hseen]
  · rw [if_neg hseen]
    cases hd : t.deadline with
    | empty => simp [projectTaskKeep, hseen, hd]
    | invalid => simp [projectTaskKeep, hseen, hd]
    | valid d =>
      dsimp only
      by_cases hw : withinRange range d
      · rw [if_pos hw]
        simp [projectTaskKeep, hseen, hd, hw]
      · rw [if_neg hw]
        simp [projectTaskKeep, hseen, hd, hw]

/-- `taskEventIds` over a `flatMap` of per-project events. -/
theorem taskEventIds_flatMap (g : CalProject → List (String × DayEvent))
    (l : List CalProject) :
    taskEventIds (l.flatMap g) = l.flatMap (fun p => taskEventIds (g p)) := by
  induction l with
  | nil => rfl
  | cons p rest ih =>
    rw [List.flatMap_cons, List.flatMap_cons, taskEventIds_append, ih]

/-- Componentwise sublists give a sublist of `flatMap`s. -/
theorem flatMap_sublist {α β : Type} (f g : α → List β) (l : List α)
    (h : ∀ a ∈ l, (f a).Sublist (g a)) :
    (l.flatMap f).Sublist (l.flatMap g) := by
  induction l with
  | nil => exact List.Sublist.refl _
  | cons a rest ih =>
    rw [List.flatMap_cons, List.flatMap_cons]
    exact (h a (by simp)).append (ih (fun x hx => h x (by simp [hx])))

/-- C5 counterexample: with an empty 'my calendar' list (trivially
duplicate-free) and two projects each containing a task with id 7 and a
valid in-range deadline, the aggregation emits the task id 7 twice —
`seenTaskIds` only records ids from the 'my calendar' source, so
duplicates among project task lists are not suppressed. -/
theorem eventsByDate_dedup_counterexample :
    (([] : List CalTask).map CalTask.id).Nodup ∧
    taskEventIds (allCalendarEvents (fun _ => "d") ⟨none, none⟩ []
      [⟨1, .empty, [⟨7, .valid 0⟩]⟩, ⟨2, .empty, [⟨7, .valid 0⟩]⟩]) = [7, 7] ∧
    ¬ (taskEventIds (allCalendarEvents (fun _ => "d") ⟨none, none⟩ []
      [⟨1, .empty, [⟨7, .valid 0⟩]⟩, ⟨2, .empty, [⟨7, .valid 0⟩]⟩])).Nodup :=
  ⟨by decide, rfl, by decide⟩

/-- C5 (amended): when the 'my calendar' task ids are pairwise distinct
AND the ids across all projects' task lists are pairwise distinct, every
task id occurs at most once in the aggregation (a task already emitted
from the 'my calendar' source suppresses its project-derived duplicate);
unconditionally, every emitted event has a parsed deadline lying within
the optional [from, to] window and sits under the key `dayKey` gives its
deadline, and every event in a day bucket has that bucket's key. -/
theorem eventsByDate_spec (dayKey : Int → String) (range : RangeFilter)
    (tasks : List CalTask) (projects : List CalProject) :
    ((tasks.map CalTask.id).Nodup →
     (projects.flatMap (fun p => p.tasks.map CalTask.id)).Nodup →
     (taskEventIds (allCalendarEvents dayKey range tasks projects)).Nodup) ∧
    (∀ kv ∈ allCalendarEvents dayKey range tasks projects,
       withinRange range (eventDate kv.snd) = true ∧
       kv.fst = dayKey (eventDate kv.snd)) ∧
    (∀ key : String, ∀ e ∈ eventsByDate dayKey range tasks projects key,
       dayKey (eventDate e) = key) := by
  have hP : ∀ kv ∈ allCalendarEvents dayKey range tasks projects,
      withinRange range (eventDate kv.snd) = true ∧
      kv.fst = dayKey (eventDate kv.snd) := by
    intro kv hkv
    rw [allCalendarEvents, List.mem_append] at hkv
    rcases hkv with hkv | hkv
    · rw [calendarTaskEvents, List.mem_filterMap] at hkv
      obtain ⟨t, _, hft⟩ := hkv
      cases hd : t.deadline with
      | empty => rw [hd] at hft; cases hft
      | invalid => rw [hd] at hft; cases hft
      | valid d =>
        rw [hd] at hft
        dsimp only at hft
        by_cases hw : withinRange range d
        · rw [if_pos hw] at hft
          cases hft
          exact ⟨hw, rfl⟩
        · rw [if_neg hw] at hft; cases hft
    · rw [List.mem_flatMap] at hkv
      obtain ⟨p, _, hkvp⟩ := hkv
      rw [projectEvents, List.mem_append] at hkvp
      rcases hkvp with h | h
      · rw [List.mem_filterMap] at h
        obtain ⟨t, _, hft⟩ := h
        by_cases hseen : t.id ∈ seenTaskIds range tasks
        · rw [if_pos hseen] at hft; cases hft
        · rw [if_neg hseen] at hft
          cases hd : t.deadline with
          | empty => rw [hd] at hft; cases hft
          | invalid => rw [hd] at hft; cases hft
          | valid d =>
            rw [hd] at hft
            dsimp only at hft
            by_cases hw : withinRange range d
            · rw [if_pos hw] at hft
              cases hft
              exact ⟨hw, rfl⟩
            · rw [if_neg hw] at hft; cases hft
      · cases hd : p.deadline with
        | empty => rw [hd] at h; cases h
        | invalid => rw [hd] at h; cases h
        | valid d =>
          rw [hd] at h
          dsimp only at h
          by_cases hw : withinRange range d
          · rw [if_pos hw] at h
            rw [List.mem_singleton] at h
            subst h
            exact ⟨hw, rfl⟩
          · rw [if_neg hw] at h; cases h
  refine ⟨?_, hP, ?_⟩
  · intro h1 h2
    rw [allCalendarEvents, taskEventIds_append, taskEventIds_calendar,
      taskEventIds_flatMap]
    have hAsub : (seenTaskIds range tasks).Sublist (tasks.map CalTask.id) :=
      (List.filter_sublist _).map _
    have hAnodup : (seenTaskIds range tasks).Nodup := h1.sublist hAsub
    have hBsub : ∀ p ∈ projects,
        (taskEventIds (projectEvents dayKey range (seenTaskIds range tasks) p)).Sublist
          (p.tasks.map CalTask.id) := by
      intro p _
      rw [taskEventIds_project]
      exact (List.filter_sublist _).map _
    have hBnodup :
        (projects.flatMap (fun p =>
          taskEventIds (projectEvents dayKey range (seenTaskIds range tasks) p))).Nodup :=
      h2.sublist (flatMap_sublist _ _ _ hBsub)
    refine hAnodup.append hBnodup ?_
    intro x hxA hxB
    rw [List.mem_flatMap] at hxB
    obtain ⟨p, _, hx⟩ := hxB
    rw [taskEventIds_project] at hx
    obtain ⟨t, ht, rfl⟩ := List.mem_map.mp hx
    have hcond := (List.mem_filter.mp ht).2
    rw [projectTaskKeep, Bool.and_eq_true] at hcond
    have : ¬ t.id ∈ seenTaskIds range tasks := by
      simpa using hcond.1
    exact this hxA
  · intro key e he
    rw [eventsByDate] at he
    obtain ⟨kv, hkv, rfl⟩ := List.mem_map.mp he
    obtain ⟨hall, hkey⟩ := List.mem_filter.mp hkv
    have hk : kv.fst = key := by simpa using hkey
    rw [← (hP kv hall).2]
    exact hk

/-- Closed instance of C5's amended theorem: one calendar task (id 1)
also present in the project's task list, plus a second project task
(id 2) — the aggregated task ids are duplicate-free. -/
theorem eventsByDate_spec_witness :
    (taskEventIds (allCalendarEvents (fun n => toString n) ⟨none, none⟩
      [⟨1, .valid 5⟩]
      [⟨10, .valid 20, [⟨1, .valid 5⟩, ⟨2, .valid 6⟩]⟩])).Nodup :=
  (eventsByDate_spec (fun n => toString n) ⟨none, none⟩
      [⟨1, .valid 5⟩]
      [⟨10, .valid 20, [⟨1, .valid 5⟩, ⟨2, .valid 6⟩]⟩]).1 (by decide) (by decide)
